import Mathlib

/-!
Verification of the draft-autosave add-on (`src/__init__.py`).

The add-on keeps a per-profile JSON file mapping note-type names to draft
entries `{ "last_saved": <number>, "fields": [<string>...], "tags":
[<string>...] }`.  We shallowly embed the pure logic of the store
operations:

* the on-disk file is a `DiskFile` (absent, unparseable bytes, or a JSON
  value);
* JSON values are the inductive `JSON`, with Python dictionaries modelled
  as ordered association lists (Python dicts preserve insertion order);
* wall-clock timestamps are rationals (`ℚ`), with exact arithmetic; the
  several `_now_ts()` calls inside one store operation are modelled as a
  single instant `now` passed as a parameter;
* file writes are modelled on their success path (`_save_all_backups`
  swallows I/O errors; the store's logical behaviour is the written state).
-/

namespace DraftAutosave

/-- JSON values as produced by Python's `json` module: objects are ordered
key/value lists (Python dicts preserve insertion order and have no
duplicate keys). -/
inductive JSON where
  | null : JSON
  | bool (b : Bool) : JSON
  | num (q : ℚ) : JSON
  | str (s : String) : JSON
  | arr (items : List JSON) : JSON
  | obj (fields : List (String × JSON)) : JSON

/-- Python truthiness of a JSON value (`if not entry: ...`): `None`, `False`,
`0`, `""`, `[]` and `{}` are falsy. -/
def json_truthy : JSON → Bool
  | .null => false
  | .bool b => b
  | .num q => q != 0
  | .str s => s != ""
  | .arr items => !items.isEmpty
  | .obj kvs => !kvs.isEmpty

/-- Numeric value of a list of decimal digit characters. -/
def digits_val (l : List Char) : ℕ :=
  l.foldl (fun acc c => 10 * acc + (c.toNat - 48)) 0

/-- Parse the mantissa part of a Python float literal: `digits`,
`digits.digits`, `digits.` or `.digits`. -/
def parse_mantissa (l : List Char) : Option ℚ :=
  let p := l.span Char.isDigit
  match p.2 with
  | [] => if p.1.isEmpty then none else some (digits_val p.1 : ℚ)
  | '.' :: fp =>
    if !fp.all Char.isDigit then none
    else if p.1.isEmpty && fp.isEmpty then none
    else some ((digits_val p.1 : ℚ) + (digits_val fp : ℚ) / 10 ^ fp.length)
  | _ => none

/-- Parse the exponent part (after `e`/`E`) of a Python float literal. -/
def parse_exp (l : List Char) : Option ℤ :=
  match l with
  | [] => none
  | c :: rest =>
    let p : ℤ × List Char :=
      if c = '+' then (1, rest) else if c = '-' then (-1, rest) else (1, l)
    if p.2.isEmpty || !p.2.all Char.isDigit then none
    else some (p.1 * (digits_val p.2 : ℤ))

/-- Scale a rational by a (possibly negative) power of ten. -/
def scale_pow10 (q : ℚ) (e : ℤ) : ℚ :=
  if 0 ≤ e then q * 10 ^ e.toNat else q / 10 ^ (-e).toNat

/-- `float(s)` for a string `s`: strip whitespace, optional sign, decimal
mantissa, optional decimal exponent.  (Non-finite forms such as `inf`/`nan`
and digit-group underscores are outside the model.) -/
def parse_pyfloat (s : String) : Option ℚ :=
  let l := ((s.data.dropWhile Char.isWhitespace).reverse.dropWhile
    Char.isWhitespace).reverse
  match l with
  | [] => none
  | c :: rest =>
    let p : ℚ × List Char :=
      if c = '+' then (1, rest) else if c = '-' then (-1, rest) else (1, l)
    let q := p.2.span (fun ch => !(ch == 'e' || ch == 'E'))
    match q.2 with
    | [] => (parse_mantissa q.1).map (fun m => p.1 * m)
    | _ :: ex =>
      match parse_mantissa q.1, parse_exp ex with
      | some m, some e => some (p.1 * scale_pow10 m e)
      | _, _ => none

/-- Python's `float(x)` applied to a JSON value: numbers and booleans
coerce, strings are parsed, everything else raises (`none`). -/
def pyfloat : JSON → Option ℚ
  | .num q => some q
  | .bool b => some (if b then 1 else 0)
  | .str s => parse_pyfloat s
  | _ => none

/-- The persisted top-level mapping from note-type name to draft entry,
as an ordered association list (a Python dict). -/
abbrev Store := List (String × JSON)

/-- `backups.get(name)`: first (only) value stored under a key. -/
def dictGet (k : String) : Store → Option JSON
  | [] => none
  | (k2, v) :: rest => if k2 = k then some v else dictGet k rest

/-- `name in backups`. -/
def hasKey (k : String) (l : Store) : Bool :=
  l.any (fun kv => decide (kv.1 = k))

/-- `backups.pop(name, None)`: remove the entry stored under a key. -/
def dictPop (k : String) (l : Store) : Store :=
  l.filter (fun kv => decide (kv.1 ≠ k))

/-- `backups[name] = entry`: update in place if present, else append. -/
def dictSet (k : String) (v : JSON) (l : Store) : Store :=
  if hasKey k l then l.map (fun kv => if kv.1 = k then (k, v) else kv)
  else l ++ [(k, v)]

/-- Contents of the backing file when it exists: either bytes that
`json.load` rejects, or a parsed JSON value. -/
inductive FileData where
  | corrupt : FileData
  | json (j : JSON) : FileData

/-- The backing file's state: `none` means the file does not exist. -/
abbrev DiskFile := Option FileData

/-- `MAX_AGE_SECONDS = 48 * 60 * 60` (line 35). -/
def MAX_AGE_SECONDS : ℚ := 48 * 60 * 60

/-- `_load_all_backups` (lines 81-109): absent file, unparseable bytes, or a
top-level value that is not an object all yield the empty mapping. -/
def load_all_backups : DiskFile → Store
  | none => []
  | some .corrupt => []
  | some (.json j) =>
    match j with
    | .obj kvs => kvs
    | _ => []

/-- `_save_all_backups` (lines 112-120) on its success path: the file now
holds the serialized mapping.  (I/O failures are swallowed by the source
and not modelled.) -/
def save_all_backups (data : Store) : DiskFile :=
  some (.json (.obj data))

/-- `float(entry.get("last_saved", 0))` (lines 128-129 and 152-153):
`none` is the exception path (`entry` not a dict, or the value not
coercible to float); a missing key defaults to `0`. -/
def entry_last_saved : JSON → Option ℚ
  | .obj kvs => pyfloat ((dictGet "last_saved" kvs).getD (.num 0))
  | _ => none

/-- The loop body test of `_prune_old_backups` (lines 128-132): an entry is
kept iff its `last_saved` parses (`try`/`except` → `continue`) and
`now - last_saved <= MAX_AGE_SECONDS`. -/
def keep_entry (now : ℚ) (entry : JSON) : Bool :=
  match entry_last_saved entry with
  | none => false
  | some ls => decide (now - ls ≤ MAX_AGE_SECONDS)

/-- `_prune_old_backups` (lines 123-134), with the `_now_ts()` it reads
passed in as `now`. -/
def prune_old_backups (now : ℚ) : Store → Store
  | [] => []
  | (name, entry) :: rest =>
    if keep_entry now entry then
      (name, entry) :: prune_old_backups now rest
    else
      prune_old_backups now rest

/-- `_load_backup_for_notetype` (lines 137-163): returns the entry (if any)
and the new disk state.  The pruned mapping is persisted unconditionally;
a falsy entry (`if not entry`) or an unparseable `last_saved` yields
`None`; an expired entry is popped and the mapping persisted again. -/
def load_backup_for_notetype (nt_name : String) (now : ℚ) (disk : DiskFile) :
    Option JSON × DiskFile :=
  if nt_name = "" then (none, disk)
  else
    let backups := prune_old_backups now (load_all_backups disk)
    let disk1 := save_all_backups backups
    match dictGet nt_name backups with
    | none => (none, disk1)
    | some entry =>
      if json_truthy entry = false then (none, disk1)
      else
        match entry_last_saved entry with
        | none => (none, disk1)
        | some ls =>
          if MAX_AGE_SECONDS < now - ls then
            (none, save_all_backups (dictPop nt_name backups))
          else
            (some entry, disk1)

/-- The fresh entry written by `_save_backup_for_notetype` (lines 174-178):
`{"last_saved": now, "fields": fields, "tags": tags}`. -/
def mk_entry (now : ℚ) (fields tags : List String) : JSON :=
  .obj
    [("last_saved", .num now),
     ("fields", .arr (fields.map .str)),
     ("tags", .arr (tags.map .str))]

/-- `_save_backup_for_notetype` (lines 166-180): no-op on an empty name;
otherwise load, prune, upsert a fresh entry, persist. -/
def save_backup_for_notetype (nt_name : String) (fields tags : List String)
    (now : ℚ) (disk : DiskFile) : DiskFile :=
  if nt_name = "" then disk
  else
    let backups := prune_old_backups now (load_all_backups disk)
    save_all_backups (dictSet nt_name (mk_entry now fields tags) backups)

/-- `_clear_backup_for_notetype` (lines 183-200): no-op on an empty name or
an absent key; otherwise pop the entry and persist, or delete the file
when the mapping became empty. -/
def clear_backup_for_notetype (nt_name : String) (disk : DiskFile) : DiskFile :=
  if nt_name = "" then disk
  else
    let backups := load_all_backups disk
    if hasKey nt_name backups then
      let reduced := dictPop nt_name backups
      if reduced.isEmpty then none
      else save_all_backups reduced
    else disk

/-- `_apply_fields` (lines 72-76): write `fields[i]` onto the `i`-th field
of the note for `i < len(fields)`; a note is its ordered list of
`(field name, value)` pairs (`note.items()`), with distinct field names,
so the by-name assignment `note[field_name] = fields[i]` is positional. -/
def apply_fields : List (String × String) → List String → List (String × String)
  | [], _ => []
  | note, [] => note
  | (name, _) :: note, f :: fields => (name, f) :: apply_fields note fields

/-- Decode a JSON array of strings. -/
def str_list : List JSON → Option (List String)
  | [] => some []
  | .str s :: rest => (str_list rest).map (fun l => s :: l)
  | _ => none

/-- The `fields` component of a draft entry, when it is a list of strings. -/
def entry_fields (e : JSON) : Option (List String) :=
  match e with
  | .obj kvs =>
    match dictGet "fields" kvs with
    | some (.arr items) => str_list items
    | _ => none
  | _ => none

/-- The `tags` component of a draft entry, when it is a list of strings. -/
def entry_tags (e : JSON) : Option (List String) :=
  match e with
  | .obj kvs =>
    match dictGet "tags" kvs with
    | some (.arr items) => str_list items
    | _ => none
  | _ => none

theorem str_list_map_str (F : List String) : str_list (F.map .str) = some F := by
  induction F with
  | nil => rfl
  | cons s rest ih => simp [str_list, ih]

theorem keep_entry_iff {now : ℚ} {v : JSON} :
    keep_entry now v = true ↔
      ∃ ls, entry_last_saved v = some ls ∧ now - ls ≤ MAX_AGE_SECONDS := by
  unfold keep_entry
  rcases h : entry_last_saved v with _ | ls <;> simp [h]

theorem dictGet_eq_none_of_not_mem_keys {k : String} {l : Store}
    (h : k ∉ l.map Prod.fst) : dictGet k l = none := by
  induction l with
  | nil => rfl
  | cons kv rest ih =>
    obtain ⟨k2, v⟩ := kv
    simp only [List.map_cons, List.mem_cons, not_or] at h
    simp only [dictGet, if_neg (fun hh : k2 = k => h.1 hh.symm)]
    exact ih h.2

theorem dictGet_isSome_eq_hasKey (k : String) (l : Store) :
    (dictGet k l).isSome = hasKey k l := by
  induction l with
  | nil => rfl
  | cons kv rest ih =>
    obtain ⟨k2, v⟩ := kv
    by_cases hk : k2 = k
    · simp [dictGet, hasKey, hk]
    · simp only [dictGet, if_neg hk, hasKey, List.any_cons, decide_eq_true_eq, hk,
        decide_False, Bool.false_or]
      simpa [hasKey] using ih

theorem mem_prune_old_backups {now : ℚ} {l : Store} {e : String × JSON}
    (h : e ∈ prune_old_backups now l) :
    e ∈ l ∧ keep_entry now e.2 = true := by
  induction l with
  | nil => simp [prune_old_backups] at h
  | cons kv rest ih =>
    obtain ⟨k2, v⟩ := kv
    simp only [prune_old_backups] at h
    by_cases hk : keep_entry now v = true
    · rw [if_pos hk] at h
      rcases List.mem_cons.mp h with h1 | h1
      · subst h1; exact ⟨List.mem_cons_self _ _, hk⟩
      · obtain ⟨h2, h3⟩ := ih h1
        exact ⟨List.mem_cons_of_mem _ h2, h3⟩
    · rw [if_neg hk] at h
      obtain ⟨h2, h3⟩ := ih h
      exact ⟨List.mem_cons_of_mem _ h2, h3⟩

theorem dictGet_prune_of_kept {k : String} {v : JSON} {now : ℚ} {l : Store}
    (hget : dictGet k l = some v) (hkeep : keep_entry now v = true) :
    dictGet k (prune_old_backups now l) = some v := by
  induction l with
  | nil => simp [dictGet] at hget
  | cons kv rest ih =>
    obtain ⟨k2, v2⟩ := kv
    simp only [dictGet] at hget
    by_cases hk : k2 = k
    · rw [if_pos hk] at hget
      injection hget with hv
      subst hv
      simp [prune_old_backups, hkeep, dictGet, hk]
    · rw [if_neg hk] at hget
      simp only [prune_old_backups]
      by_cases hk2 : keep_entry now v2 = true
      · rw [if_pos hk2]
        simp only [dictGet, if_neg hk]
        exact ih hget
      · rw [if_neg hk2]
        exact ih hget

theorem dictGet_prune_none_of_not_mem {now : ℚ} {l : Store} {k : String}
    (h : k ∉ l.map Prod.fst) : dictGet k (prune_old_backups now l) = none := by
  induction l with
  | nil => rfl
  | cons kv rest ih =>
    obtain ⟨k2, v⟩ := kv
    simp only [List.map_cons, List.mem_cons, not_or] at h
    simp only [prune_old_backups]
    by_cases hk2 : keep_entry now v = true
    · rw [if_pos hk2]
      simp only [dictGet, if_neg (fun hh : k2 = k => h.1 hh.symm)]
      exact ih h.2
    · rw [if_neg hk2]
      exact ih h.2

theorem dictGet_prune_of_dropped {k : String} {v : JSON} {now : ℚ} {l : Store}
    (hnd : (l.map Prod.fst).Nodup) (hget : dictGet k l = some v)
    (hkeep : keep_entry now v = false) :
    dictGet k (prune_old_backups now l) = none := by
  induction l with
  | nil => simp [dictGet] at hget
  | cons kv rest ih =>
    obtain ⟨k2, v2⟩ := kv
    simp only [List.map_cons, List.nodup_cons] at hnd
    simp only [dictGet] at hget
    by_cases hk : k2 = k
    · rw [if_pos hk] at hget
      injection hget with hv
      subst hv
      simp only [prune_old_backups]
      rw [if_neg (by simp [hkeep])]
      exact dictGet_prune_none_of_not_mem (hk ▸ hnd.1)
    · rw [if_neg hk] at hget
      simp only [prune_old_backups]
      by_cases hk2 : keep_entry now v2 = true
      · rw [if_pos hk2]
        simp only [dictGet, if_neg hk]
        exact ih hnd.2 hget
      · rw [if_neg hk2]
        exact ih hnd.2 hget

theorem dictGet_map_update (k : String) (v : JSON) (l : Store) :
    dictGet k (l.map (fun kv => if kv.1 = k then (k, v) else kv)) =
      (dictGet k l).map (fun _ => v) := by
  induction l with
  | nil => rfl
  | cons kv rest ih =>
    obtain ⟨k2, v2⟩ := kv
    simp only [List.map_cons]
    by_cases hk : k2 = k
    · rw [show (if (k2, v2).1 = k then (k, v) else (k2, v2)) = (k, v) from if_pos hk]
      simp [dictGet, hk]
    · rw [show (if (k2, v2).1 = k then (k, v) else (k2, v2)) = (k2, v2) from if_neg hk]
      simp [dictGet, hk, ih]

theorem dictGet_append_left_none {k : String} {l1 l2 : Store}
    (h : dictGet k l1 = none) : dictGet k (l1 ++ l2) = dictGet k l2 := by
  induction l1 with
  | nil => rfl
  | cons kv rest ih =>
    obtain ⟨k2, v⟩ := kv
    simp only [dictGet] at h
    by_cases hk : k2 = k
    · rw [if_pos hk] at h
      exact Option.noConfusion h
    · rw [if_neg hk] at h
      simp only [List.cons_append, dictGet, if_neg hk]
      exact ih h

theorem dictGet_dictSet_self (k : String) (v : JSON) (l : Store) :
    dictGet k (dictSet k v l) = some v := by
  unfold dictSet
  by_cases hh : hasKey k l = true
  · rw [if_pos hh, dictGet_map_update]
    rcases hres : dictGet k l with _ | w
    · rw [← dictGet_isSome_eq_hasKey, hres] at hh
      exact Bool.noConfusion hh
    · rfl
  · rw [if_neg hh]
    have hnone : dictGet k l = none := by
      rcases hres : dictGet k l with _ | w
      · rfl
      · exfalso
        apply hh
        rw [← dictGet_isSome_eq_hasKey, hres]
        rfl
    rw [dictGet_append_left_none hnone]
    simp [dictGet]

theorem dictGet_dictSet_ne {k k2 : String} (v : JSON) (l : Store) (hne : k2 ≠ k) :
    dictGet k2 (dictSet k v l) = dictGet k2 l := by
  unfold dictSet
  by_cases hh : hasKey k l = true
  · rw [if_pos hh]
    clear hh
    induction l with
    | nil => rfl
    | cons kv rest ih =>
      obtain ⟨k3, v3⟩ := kv
      simp only [List.map_cons]
      by_cases hk : k3 = k
      · subst hk
        rw [show (if (k3, v3).1 = k3 then (k3, v) else (k3, v3)) = (k3, v) from
          if_pos rfl]
        simp only [dictGet, if_neg (Ne.symm hne), if_neg (fun h : k3 = k2 => hne h.symm)]
        exact ih
      · rw [show (if (k3, v3).1 = k then (k, v) else (k3, v3)) = (k3, v3) from
          if_neg hk]
        by_cases hk2 : k3 = k2
        · simp [dictGet, hk2]
        · simp only [dictGet, if_neg hk2]
          exact ih
  · rw [if_neg hh]
    clear hh
    induction l with
    | nil => simp [dictGet, Ne.symm hne]
    | cons kv rest ih =>
      obtain ⟨k3, v3⟩ := kv
      by_cases hk2 : k3 = k2 <;> simp [dictGet, List.cons_append, hk2, ih]

theorem mem_dictSet {k : String} {v : JSON} {l : Store} {e : String × JSON}
    (h : e ∈ dictSet k v l) : e = (k, v) ∨ e ∈ l := by
  unfold dictSet at h
  by_cases hh : hasKey k l = true
  · rw [if_pos hh] at h
    obtain ⟨a, ha, hae⟩ := List.mem_map.mp h
    by_cases hk : a.1 = k
    · left
      rw [← hae]
      simp [hk]
    · right
      rw [← hae]
      simpa [hk] using ha
  · rw [if_neg hh] at h
    rcases List.mem_append.mp h with h1 | h1
    · right; exact h1
    · left; simpa using h1

theorem hasKey_dictPop_self (k : String) (l : Store) :
    hasKey k (dictPop k l) = false := by
  simp only [hasKey, List.any_eq_false, dictPop]
  intro kv hmem
  have h2 := List.of_mem_filter hmem
  simp only [ne_eq, decide_eq_true_eq] at h2 ⊢
  exact h2

theorem mem_dictPop {k : String} {l : Store} {e : String × JSON}
    (h : e ∈ dictPop k l) : e ∈ l :=
  List.mem_of_mem_filter h

theorem entry_last_saved_mk (now : ℚ) (F Ts : List String) :
    entry_last_saved (mk_entry now F Ts) = some now := by
  simp [entry_last_saved, mk_entry, dictGet, pyfloat]

theorem json_truthy_mk (now : ℚ) (F Ts : List String) :
    json_truthy (mk_entry now F Ts) = true := rfl

theorem entry_fields_mk (now : ℚ) (F Ts : List String) :
    entry_fields (mk_entry now F Ts) = some F := by
  simp [entry_fields, mk_entry, dictGet, str_list_map_str]

theorem entry_tags_mk (now : ℚ) (F Ts : List String) :
    entry_tags (mk_entry now F Ts) = some Ts := by
  simp [entry_tags, mk_entry, dictGet, str_list_map_str]

theorem load_all_save_backup (nt : String) (F Ts : List String) (now : ℚ)
    (disk : DiskFile) (hnt : nt ≠ "") :
    load_all_backups (save_backup_for_notetype nt F Ts now disk) =
      dictSet nt (mk_entry now F Ts) (prune_old_backups now (load_all_backups disk)) := by
  simp only [save_backup_for_notetype, if_neg hnt]
  rfl

/-- Whether a JSON value is an object (`isinstance(data, dict)`). -/
def JSON.isObj : JSON → Bool
  | .obj _ => true
  | _ => false

/-- C4: for every state of the backing file — absent, containing non-JSON
bytes, or containing JSON whose top-level value is not an object —
`_load_all_backups` returns the empty mapping.  (It is a total Lean
function, so no parse or I/O failure propagates.) -/
theorem load_all_backups_corruption_tolerant :
    load_all_backups none = [] ∧ load_all_backups (some .corrupt) = [] ∧
      ∀ j : JSON, j.isObj = false → load_all_backups (some (.json j)) = [] := by
  refine ⟨rfl, rfl, ?_⟩
  intro j hj
  cases j <;> first | rfl | simp [JSON.isObj] at hj

/-- Witness for C4: a JSON array at the top level yields the empty mapping. -/
theorem load_all_backups_corruption_tolerant_witness :
    load_all_backups (some (.json (.arr [.str "x"]))) = [] :=
  load_all_backups_corruption_tolerant.2.2 (.arr [.str "x"]) rfl

/-- C7: `_apply_fields` applies the stored fields positionally only up to
the shorter of the two lengths — extra stored fields are dropped, trailing
note fields keep their prior values — and the note keeps its length (the
function is total, so no index error can occur). -/
theorem apply_fields_min_length (note : List (String × String)) (fields : List String) :
    apply_fields note fields =
      (note.zipWith (fun p f => (p.1, f)) fields) ++ note.drop fields.length ∧
    (apply_fields note fields).length = note.length := by
  constructor
  · induction note generalizing fields with
    | nil => cases fields <;> rfl
    | cons p rest ih =>
      cases fields with
      | nil => simp [apply_fields]
      | cons f fs =>
        obtain ⟨n, v⟩ := p
        simp [apply_fields, ih]
  · induction note generalizing fields with
    | nil => cases fields <;> rfl
    | cons p rest ih =>
      cases fields with
      | nil => rfl
      | cons f fs =>
        obtain ⟨n, v⟩ := p
        simp [apply_fields, ih]

/-- C10: for a non-empty record-type and an absent backing file, `get`
returns absent but persists the pruned (empty) mapping, creating the file
with an empty JSON object; and after any `get` with a non-empty
record-type the backing file exists. -/
theorem get_creates_empty_file (nt : String) (now : ℚ) (h : nt ≠ "") :
    load_backup_for_notetype nt now none = (none, some (.json (.obj []))) ∧
    ∀ disk : DiskFile, ((load_backup_for_notetype nt now disk).2).isSome = true := by
  constructor
  · simp only [load_backup_for_notetype, if_neg h]
    rfl
  · intro disk
    simp only [load_backup_for_notetype, if_neg h]
    split
    · rfl
    · split
      · rfl
      · split
        · rfl
        · split <;> rfl

/-- Witness for C10 at record-type `"Basic"` and time `0`. -/
theorem get_creates_empty_file_witness :
    load_backup_for_notetype "Basic" 0 none = (none, some (.json (.obj []))) :=
  (get_creates_empty_file "Basic" 0 (by decide)).1

/-- C5: clearing the sole entry deletes the backing file entirely (the
store no longer exists); when other entries remain, the reduced mapping is
persisted instead and the file still exists. -/
theorem clear_last_entry_deletes_file :
    (∀ (nt : String) (e : JSON), nt ≠ "" →
      clear_backup_for_notetype nt (some (.json (.obj [(nt, e)]))) = none) ∧
    (∀ (nt : String) (store : Store), nt ≠ "" → hasKey nt store = true →
      (dictPop nt store).isEmpty = false →
      clear_backup_for_notetype nt (some (.json (.obj store))) =
        some (.json (.obj (dictPop nt store)))) := by
  constructor
  · intro nt e h
    simp only [clear_backup_for_notetype, if_neg h, load_all_backups]
    rw [if_pos (by simp [hasKey])]
    simp [dictPop]
  · intro nt store h hk hne
    simp only [clear_backup_for_notetype, if_neg h, load_all_backups, if_pos hk]
    rw [if_neg (by simp [hne])]
    rfl

/-- Witness for C5: one remaining entry → file deleted; two entries →
reduced mapping persisted. -/
theorem clear_last_entry_deletes_file_witness :
    clear_backup_for_notetype "Basic" (some (.json (.obj [("Basic", .null)]))) = none ∧
    clear_backup_for_notetype "A"
        (some (.json (.obj [("A", .null), ("B", .null)]))) =
      some (.json (.obj [("B", .null)])) :=
  ⟨clear_last_entry_deletes_file.1 "Basic" .null (by decide),
   clear_last_entry_deletes_file.2 "A" [("A", .null), ("B", .null)]
     (by decide) (by decide) (by decide)⟩

/-- C6: clearing a non-empty record-type that has no entry is a no-op
(both mapping contents and file existence are unchanged), and for every
disk state clearing twice ends in the same state as clearing once. -/
theorem clear_idempotent_noop (nt : String) (disk : DiskFile) :
    (nt ≠ "" → hasKey nt (load_all_backups disk) = false →
      clear_backup_for_notetype nt disk = disk) ∧
    clear_backup_for_notetype nt (clear_backup_for_notetype nt disk) =
      clear_backup_for_notetype nt disk := by
  have hnoop : ∀ d : DiskFile, nt ≠ "" → hasKey nt (load_all_backups d) = false →
      clear_backup_for_notetype nt d = d := by
    intro d h hk
    simp only [clear_backup_for_notetype, if_neg h]
    rw [if_neg (by simp [hk])]
  refine ⟨hnoop disk, ?_⟩
  by_cases h : nt = ""
  · simp [clear_backup_for_notetype, h]
  · by_cases hk : hasKey nt (load_all_backups disk) = true
    · have hval : clear_backup_for_notetype nt disk =
          (if (dictPop nt (load_all_backups disk)).isEmpty = true then none
           else save_all_backups (dictPop nt (load_all_backups disk))) := by
        simp only [clear_backup_for_notetype, if_neg h, if_pos hk]
      rw [hval]
      by_cases he : (dictPop nt (load_all_backups disk)).isEmpty = true
      · rw [if_pos he]
        exact hnoop none h rfl
      · rw [if_neg he]
        apply hnoop _ h
        show hasKey nt (dictPop nt (load_all_backups disk)) = false
        exact hasKey_dictPop_self nt _
    · have hk2 : hasKey nt (load_all_backups disk) = false := by
        simpa using hk
      rw [hnoop disk h hk2]
      exact hnoop disk h hk2

/-- C1: for every non-empty record-type, saving fields `F` and tags `Ts`
and then immediately getting (`t1 ≤ t2`, within the freshness window)
returns an entry whose fields are `F`, whose tags are `Ts`, and whose
`last_saved` lies between the save time and the get time. -/
theorem round_trip_save_get (nt : String) (F Ts : List String) (t1 t2 : ℚ)
    (disk : DiskFile) (hnt : nt ≠ "") (h12 : t1 ≤ t2)
    (himm : t2 - t1 ≤ MAX_AGE_SECONDS) :
    ∃ e, (load_backup_for_notetype nt t2
        (save_backup_for_notetype nt F Ts t1 disk)).1 = some e ∧
      entry_fields e = some F ∧ entry_tags e = some Ts ∧
      ∃ ls, entry_last_saved e = some ls ∧ t1 ≤ ls ∧ ls ≤ t2 := by
  have hkeep : keep_entry t2 (mk_entry t1 F Ts) = true :=
    keep_entry_iff.mpr ⟨t1, entry_last_saved_mk t1 F Ts, himm⟩
  have hget2 : dictGet nt (prune_old_backups t2 (load_all_backups
      (save_backup_for_notetype nt F Ts t1 disk))) = some (mk_entry t1 F Ts) := by
    rw [load_all_save_backup nt F Ts t1 disk hnt]
    exact dictGet_prune_of_kept (dictGet_dictSet_self nt _ _) hkeep
  refine ⟨mk_entry t1 F Ts, ?_, entry_fields_mk t1 F Ts, entry_tags_mk t1 F Ts,
    t1, entry_last_saved_mk t1 F Ts, le_refl t1, h12⟩
  simp only [load_backup_for_notetype, if_neg hnt, hget2]
  rw [if_neg (by simp [json_truthy_mk])]
  simp only [entry_last_saved_mk]
  rw [if_neg (not_lt.mpr himm)]

/-- Witness for C1 at `save("Basic", ["f"], ["t"])` at time `0` followed by
`get("Basic")` at time `1` on an absent file. -/
theorem round_trip_save_get_witness :
    ∃ e, (load_backup_for_notetype "Basic" 1
        (save_backup_for_notetype "Basic" ["f"] ["t"] 0 none)).1 = some e ∧
      entry_fields e = some ["f"] ∧ entry_tags e = some ["t"] ∧
      ∃ ls, entry_last_saved e = some ls ∧ (0 : ℚ) ≤ ls ∧ ls ≤ 1 :=
  round_trip_save_get "Basic" ["f"] ["t"] 0 1 none (by decide) (by norm_num)
    (by norm_num [MAX_AGE_SECONDS])

theorem entry_last_saved_of_dictGet {kvs : List (String × JSON)} {q : ℚ}
    (h : dictGet "last_saved" kvs = some (.num q)) :
    entry_last_saved (.obj kvs) = some q := by
  simp [entry_last_saved, h, pyfloat]

theorem json_truthy_obj_of_dictGet {kvs : List (String × JSON)} {v : JSON}
    (h : dictGet "last_saved" kvs = some v) :
    json_truthy (.obj kvs) = true := by
  cases kvs with
  | nil => exact Option.noConfusion h
  | cons kv rest => rfl

/-- C2: for a non-empty record-type whose stored entry has
`last_saved = now - MAX_AGE_SECONDS - 1`, `get` returns absent and the
entry is removed from the persisted store; with
`last_saved = now - MAX_AGE_SECONDS + 1`, `get` returns the entry and it
remains in the persisted store. -/
theorem age_expiry_get (nt : String) (now : ℚ) (hnt : nt ≠ "") :
    (∀ (store : Store) (kvs : List (String × JSON)),
      (store.map Prod.fst).Nodup →
      dictGet nt store = some (.obj kvs) →
      dictGet "last_saved" kvs = some (.num (now - MAX_AGE_SECONDS - 1)) →
      (load_backup_for_notetype nt now (some (.json (.obj store)))).1 = none ∧
      dictGet nt (load_all_backups
        (load_backup_for_notetype nt now (some (.json (.obj store)))).2) = none) ∧
    (∀ (store : Store) (kvs : List (String × JSON)),
      (store.map Prod.fst).Nodup →
      dictGet nt store = some (.obj kvs) →
      dictGet "last_saved" kvs = some (.num (now - MAX_AGE_SECONDS + 1)) →
      (load_backup_for_notetype nt now (some (.json (.obj store)))).1 =
        some (.obj kvs) ∧
      dictGet nt (load_all_backups
        (load_backup_for_notetype nt now (some (.json (.obj store)))).2) =
        some (.obj kvs)) := by
  constructor
  · intro store kvs hnd hget hlsv
    have hls : entry_last_saved (.obj kvs) = some (now - MAX_AGE_SECONDS - 1) :=
      entry_last_saved_of_dictGet hlsv
    have hkeep : keep_entry now (.obj kvs) = false := by
      unfold keep_entry
      simp only [hls]
      apply decide_eq_false
      intro hcon
      linarith
    have hpruned : dictGet nt (prune_old_backups now store) = none :=
      dictGet_prune_of_dropped hnd hget hkeep
    have hres : load_backup_for_notetype nt now (some (.json (.obj store))) =
        (none, save_all_backups (prune_old_backups now store)) := by
      simp only [load_backup_for_notetype, if_neg hnt, load_all_backups, hpruned]
    exact ⟨by rw [hres], by rw [hres]; exact hpruned⟩
  · intro store kvs hnd hget hlsv
    have hls : entry_last_saved (.obj kvs) = some (now - MAX_AGE_SECONDS + 1) :=
      entry_last_saved_of_dictGet hlsv
    have hkeep : keep_entry now (.obj kvs) = true :=
      keep_entry_iff.mpr ⟨_, hls, by linarith⟩
    have hpruned : dictGet nt (prune_old_backups now store) = some (.obj kvs) :=
      dictGet_prune_of_kept hget hkeep
    have hres : load_backup_for_notetype nt now (some (.json (.obj store))) =
        (some (.obj kvs), save_all_backups (prune_old_backups now store)) := by
      simp only [load_backup_for_notetype, if_neg hnt, load_all_backups, hpruned]
      rw [if_neg (by simp [json_truthy_obj_of_dictGet hlsv])]
      simp only [hls]
      rw [if_neg (not_lt.mpr (by linarith))]
    exact ⟨by rw [hres], by rw [hres]; exact hpruned⟩

/-- Witness for C2 at `now = 172802` with `MAX_AGE_SECONDS = 172800`: an
entry one second too old is dropped, one a second inside the window is
kept. -/
theorem age_expiry_get_witness :
    ((load_backup_for_notetype "Basic" 172802 (some (.json (.obj
        [("Basic", .obj [("last_saved",
          .num (172802 - MAX_AGE_SECONDS - 1))])])))).1 = none ∧
      dictGet "Basic" (load_all_backups
        (load_backup_for_notetype "Basic" 172802 (some (.json (.obj
          [("Basic", .obj [("last_saved",
            .num (172802 - MAX_AGE_SECONDS - 1))])])))).2) = none) ∧
    ((load_backup_for_notetype "Basic" 172802 (some (.json (.obj
        [("Basic", .obj [("last_saved",
          .num (172802 - MAX_AGE_SECONDS + 1))])])))).1 =
        some (.obj [("last_saved", .num (172802 - MAX_AGE_SECONDS + 1))]) ∧
      dictGet "Basic" (load_all_backups
        (load_backup_for_notetype "Basic" 172802 (some (.json (.obj
          [("Basic", .obj [("last_saved",
            .num (172802 - MAX_AGE_SECONDS + 1))])])))).2) =
        some (.obj [("last_saved", .num (172802 - MAX_AGE_SECONDS + 1))])) :=
  ⟨(age_expiry_get "Basic" 172802 (by decide)).1
      [("Basic", .obj [("last_saved", .num (172802 - MAX_AGE_SECONDS - 1))])]
      [("last_saved", .num (172802 - MAX_AGE_SECONDS - 1))]
      (by decide) rfl rfl,
   (age_expiry_get "Basic" 172802 (by decide)).2
      [("Basic", .obj [("last_saved", .num (172802 - MAX_AGE_SECONDS + 1))])]
      [("last_saved", .num (172802 - MAX_AGE_SECONDS + 1))]
      (by decide) rfl rfl⟩

/-- C8: saving under record-type `ntT` leaves the (unexpired) entry of any
other record-type `ntU` unchanged in the persisted store. -/
theorem save_preserves_other_entry (ntT ntU : String) (F Ts : List String)
    (now : ℚ) (store : Store) (entryU : JSON) (ls : ℚ)
    (hTU : ntT ≠ ntU) (hT : ntT ≠ "")
    (hU : dictGet ntU store = some entryU)
    (hls : entry_last_saved entryU = some ls)
    (hfresh : now - ls ≤ MAX_AGE_SECONDS) :
    dictGet ntU (load_all_backups
      (save_backup_for_notetype ntT F Ts now (some (.json (.obj store))))) =
      some entryU := by
  rw [load_all_save_backup ntT F Ts now (some (.json (.obj store))) hT]
  rw [dictGet_dictSet_ne _ _ (Ne.symm hTU)]
  exact dictGet_prune_of_kept hU (keep_entry_iff.mpr ⟨ls, hls, hfresh⟩)

/-- Witness for C8: saving `"A"` at time `6` preserves `"B"`'s entry saved
at time `5`. -/
theorem save_preserves_other_entry_witness :
    dictGet "B" (load_all_backups (save_backup_for_notetype "A" ["x"] [] 6
      (some (.json (.obj [("B", .obj [("last_saved", .num 5)])]))))) =
      some (.obj [("last_saved", .num 5)]) :=
  save_preserves_other_entry "A" "B" ["x"] [] 6
    [("B", .obj [("last_saved", .num 5)])] (.obj [("last_saved", .num 5)]) 5
    (by decide) (by decide) rfl rfl (by norm_num [MAX_AGE_SECONDS])

/-- Witness for C6: clearing `"Basic"` on a corrupt file (no entries) is a
no-op, and clearing twice equals clearing once on a one-entry store. -/
theorem clear_idempotent_noop_witness :
    clear_backup_for_notetype "Basic" (some .corrupt) = some .corrupt ∧
    clear_backup_for_notetype "Basic"
        (clear_backup_for_notetype "Basic" (some (.json (.obj [("Basic", .null)])))) =
      clear_backup_for_notetype "Basic" (some (.json (.obj [("Basic", .null)]))) :=
  ⟨(clear_idempotent_noop "Basic" (some .corrupt)).1 (by decide) rfl,
   (clear_idempotent_noop "Basic" (some (.json (.obj [("Basic", .null)])))).2⟩

/-- C9: immediately after `get` or `save` (all of whose call sites in the
add-on guard against an empty record-type, lines 223-226 and 268-277),
every entry in the persisted store has a parseable `last_saved` with
`now - last_saved ≤ MAX_AGE_SECONDS` — the invariant is maintained by the
prune in each operation, not by a background sweep. -/
theorem store_invariant_after_get_save (nt : String) (F Ts : List String)
    (now : ℚ) (disk : DiskFile) (hnt : nt ≠ "") :
    (∀ e ∈ load_all_backups (load_backup_for_notetype nt now disk).2,
      ∃ ls, entry_last_saved e.2 = some ls ∧ now - ls ≤ MAX_AGE_SECONDS) ∧
    (∀ e ∈ load_all_backups (save_backup_for_notetype nt F Ts now disk),
      ∃ ls, entry_last_saved e.2 = some ls ∧ now - ls ≤ MAX_AGE_SECONDS) := by
  constructor
  · have key : ∀ e ∈ load_all_backups (load_backup_for_notetype nt now disk).2,
        e ∈ prune_old_backups now (load_all_backups disk) := by
      simp only [load_backup_for_notetype, if_neg hnt]
      split
      · intro e he; exact he
      · split
        · intro e he; exact he
        · split
          · intro e he; exact he
          · split
            · intro e he; exact mem_dictPop he
            · intro e he; exact he
    intro e he
    exact keep_entry_iff.mp (mem_prune_old_backups (key e he)).2
  · intro e he
    rw [load_all_save_backup nt F Ts now disk hnt] at he
    rcases mem_dictSet he with h1 | h1
    · refine ⟨now, ?_, by norm_num [MAX_AGE_SECONDS]⟩
      rw [h1]
      exact entry_last_saved_mk now F Ts
    · exact keep_entry_iff.mp (mem_prune_old_backups h1).2

/-- Witness for C9: the entry present after `save("Basic", ["f"], ["t"])`
at time `7` on an absent file satisfies the freshness invariant. -/
theorem store_invariant_after_get_save_witness :
    ∃ ls, entry_last_saved (mk_entry 7 ["f"] ["t"]) = some ls ∧
      (7 : ℚ) - ls ≤ MAX_AGE_SECONDS :=
  (store_invariant_after_get_save "Basic" ["f"] ["t"] 7 none (by decide)).2
    ("Basic", mk_entry 7 ["f"] ["t"]) (List.mem_singleton.mpr rfl)

theorem mem_prune_of_keep {now : ℚ} {l : Store} {e : String × JSON}
    (h : e ∈ l) (hk : keep_entry now e.2 = true) :
    e ∈ prune_old_backups now l := by
  induction l with
  | nil => simp at h
  | cons kv rest ih =>
    obtain ⟨a, b⟩ := kv
    rcases List.mem_cons.mp h with h1 | h1
    · subst h1
      have hk2 : keep_entry now b = true := hk
      simp only [prune_old_backups]
      rw [if_pos hk2]
      exact List.mem_cons_self _ _
    · by_cases hkv : keep_entry now b = true
      · simp only [prune_old_backups]
        rw [if_pos hkv]
        exact List.mem_cons_of_mem _ (ih h1)
      · simp only [prune_old_backups]
        rw [if_neg hkv]
        exact ih h1

/-- C3 (amended): `_prune_old_backups` is a pure function of the mapping
and `now` keeping exactly the entries whose `last_saved` parses to some
`ls` with `now - ls ≤ MAX_AGE_SECONDS`, unchanged; an entry whose
`last_saved` key is absent is treated as `last_saved = 0` (the source's
`entry.get("last_saved", 0)` default) and is therefore removed exactly
when `MAX_AGE_SECONDS < now` — which holds at all realistic wall-clock
times, but not for every `now`. -/
theorem prune_filter_spec (now : ℚ) (store : Store) :
    (∀ e : String × JSON,
      e ∈ prune_old_backups now store ↔
        e ∈ store ∧ ∃ ls, entry_last_saved e.2 = some ls ∧
          now - ls ≤ MAX_AGE_SECONDS) ∧
    (MAX_AGE_SECONDS < now → ∀ (name : String) (kvs : List (String × JSON)),
      dictGet "last_saved" kvs = none →
      (name, JSON.obj kvs) ∉ prune_old_backups now store) := by
  constructor
  · intro e
    constructor
    · intro h
      obtain ⟨h1, h2⟩ := mem_prune_old_backups h
      exact ⟨h1, keep_entry_iff.mp h2⟩
    · rintro ⟨h1, ls, hls, hage⟩
      exact mem_prune_of_keep h1 (keep_entry_iff.mpr ⟨ls, hls, hage⟩)
  · intro hM name kvs hmiss hmem
    obtain ⟨ls, hls, hage⟩ := keep_entry_iff.mp (mem_prune_old_backups hmem).2
    have hls2 : entry_last_saved (JSON.obj kvs) = some ls := hls
    have hzero : entry_last_saved (JSON.obj kvs) = some 0 := by
      simp [entry_last_saved, hmiss, pyfloat]
    rw [hzero] at hls2
    injection hls2 with hls3
    rw [← hls3] at hage
    linarith

/-- Witness for the amended C3: a fresh entry is kept unchanged, and (with
`now` past `MAX_AGE_SECONDS`) an entry missing `last_saved` is removed. -/
theorem prune_filter_spec_witness :
    ("B", JSON.obj [("last_saved", JSON.num 200000)]) ∈
      prune_old_backups 200001 [("B", JSON.obj [("last_saved", JSON.num 200000)])] ∧
    ("A", JSON.obj []) ∉ prune_old_backups 200001 [("A", JSON.obj [])] :=
  ⟨((prune_filter_spec 200001
        [("B", JSON.obj [("last_saved", JSON.num 200000)])]).1
        ("B", JSON.obj [("last_saved", JSON.num 200000)])).mpr
      ⟨List.mem_singleton.mpr rfl, 200000, rfl, by norm_num [MAX_AGE_SECONDS]⟩,
   (prune_filter_spec 200001 [("A", JSON.obj [])]).2
      (by norm_num [MAX_AGE_SECONDS]) "A" [] rfl⟩

/-- Counterexample to C3 as stated: it claims an entry whose `last_saved`
key is absent is always removed, but the source defaults a missing
`last_saved` to `0`, so at `now = 0` such an entry is kept. -/
theorem prune_missing_last_saved_kept_cex :
    ("A", JSON.obj []) ∈ prune_old_backups 0 [("A", JSON.obj [])] := by
  have hk : keep_entry 0 (JSON.obj []) = true := by
    simp only [keep_entry, entry_last_saved, dictGet, Option.getD_none, pyfloat,
      decide_eq_true_eq, MAX_AGE_SECONDS]
    norm_num
  simp only [prune_old_backups, if_pos hk]
  exact List.mem_cons_self _ _

end DraftAutosave
